import Mathlib

/-!
Verification of the snake game engine in src/app/page.tsx.

The React component is embedded as a pure state-transition system.  The
component state (snakeSegments, movementDirection, foodCell, gameStatus,
score, highScore), the ref pendingDirectionRef and the localStorage
persistence are collected into one record GameState; each handler and the
tick callback become functions GameState -> GameState.  localStorage writes
are journalled in storageLog so that "a write happened" is observable.

Two points of the source semantics matter and are embedded faithfully:

1. Inside step (lines 73-120) the call setMovementDirection commits the
   buffered pending direction to the direction state, but the subsequent
   reads of movementDirection in the same invocation still see the value
   captured by the useCallback closure, i.e. the direction active before
   the commit.  Hence nextHead is computed from the old direction, and the
   committed direction only affects movement from the following tick.

2. step itself never tests gameStatus, but the interval effect
   (lines 129-142) clears the timer whenever gameStatus is not running, so
   a timer tick outside the running status leaves the state unchanged.
   The system-level tick below is therefore step guarded by the status.

Math.random-based food placement is modelled by an oracle: a stream
rng : Nat -> GridCell of successive draws for the rejection-sampling loop
getRandomEmptyCell, and, at the engine level, a placement function
placeFood : List GridCell -> GridCell abstracting the result of that loop;
the contract placeFood occ is not a member of occ is exactly what
getRandomEmptyCell guarantees on success.
-/

/-- Cell of the grid, source line 5: integer coordinate pair. -/
structure GridCell where
  x : Int
  y : Int
deriving DecidableEq, Repr

/-- Source line 7. -/
inductive Direction where
  | up | down | left | right
deriving DecidableEq, Repr

/-- Source line 9. -/
inductive GameStatus where
  | idle | running | over
deriving DecidableEq, Repr

/-- Source line 11. -/
def BOARD_SIZE : Int := 20

/-- Rejection sampling of source lines 14-21, with the stream of draws made
explicit: rng i is the cell built from the i-th pair of Math.random draws.
The loop is given fuel; none means the fuel ran out before an empty cell
was drawn. -/
def getRandomEmptyCell (rng : Nat → GridCell) (occupied : List GridCell) :
    Nat → Nat → Option GridCell
  | _, 0 => none
  | i, fuel + 1 =>
      if rng i ∈ occupied then getRandomEmptyCell rng occupied (i + 1) fuel
      else some (rng i)

/-- The full mutable state of the component: the six useState values of
lines 24-32, the pending-direction ref of line 35, and a journal of the
values written to localStorage (line 69). -/
structure GameState where
  snakeSegments : List GridCell
  movementDirection : Direction
  foodCell : GridCell
  gameStatus : GameStatus
  score : Nat
  highScore : Nat
  pendingDirection : Option Direction
  storageLog : List Nat
deriving DecidableEq, Repr

/-- The initial component state of lines 24-32: snake of two cells around
the board center, direction right, food at (5,5), status idle, scores 0. -/
def init0 : GameState :=
  { snakeSegments := [⟨BOARD_SIZE / 2 - 1, BOARD_SIZE / 2⟩,
                      ⟨BOARD_SIZE / 2, BOARD_SIZE / 2⟩]
    movementDirection := Direction.right
    foodCell := ⟨5, 5⟩
    gameStatus := GameStatus.idle
    score := 0
    highScore := 0
    pendingDirection := none
    storageLog := [] }

/-- startGame of lines 52-63, with the food placement abstracted by the
oracle placeFood.  The pending ref, the high score and the storage are not
touched by the source function. -/
def startGame (placeFood : List GridCell → GridCell) (s : GameState) :
    GameState :=
  let initialSnake : List GridCell :=
    [⟨BOARD_SIZE / 2 - 1, BOARD_SIZE / 2⟩, ⟨BOARD_SIZE / 2, BOARD_SIZE / 2⟩]
  { s with snakeSegments := initialSnake
           movementDirection := Direction.right
           foodCell := placeFood initialSnake
           score := 0
           gameStatus := GameStatus.running }

/-- endGame of lines 65-71: set status over; when score exceeds highScore,
raise highScore and append the written value to the storage journal. -/
def endGame (s : GameState) : GameState :=
  let s1 := { s with gameStatus := GameStatus.over }
  if s.score > s.highScore then
    { s1 with highScore := s.score, storageLog := s.storageLog ++ [s.score] }
  else s1

/-- The onClick handler of the End Game button, line 237: it calls
setGameStatus over directly and nothing else. -/
def manualEndGame (s : GameState) : GameState :=
  { s with gameStatus := GameStatus.over }

/-- One movement of the head, lines 84-88.  The four cases are exhaustive,
so the initialisation nextHead = head is always overwritten. -/
def moveCell (d : Direction) (head : GridCell) : GridCell :=
  match d with
  | Direction.up => ⟨head.x, head.y - 1⟩
  | Direction.down => ⟨head.x, head.y + 1⟩
  | Direction.left => ⟨head.x - 1, head.y⟩
  | Direction.right => ⟨head.x + 1, head.y⟩

/-- step of lines 73-120.  The snake list is tail-first, head-last, so the
head is the last element and Array.shift removes the oldest (tail) cell.
The pending direction is committed to the direction state (lines 78-81),
but nextHead is computed from the closure-captured movementDirection, the
value before the commit.  On collision endGame runs with the captured
score and highScore, and the snake updater returns the snake unchanged. -/
def step (placeFood : List GridCell → GridCell) (s : GameState) : GameState :=
  match s.snakeSegments with
  | [] => s
  | c :: cs =>
      let dir := s.movementDirection
      let committed := s.pendingDirection.getD dir
      let s1 := { s with movementDirection := committed, pendingDirection := none }
      let head := (c :: cs).getLast (List.cons_ne_nil c cs)
      let nextHead := moveCell dir head
      if nextHead.x < 0 ∨ nextHead.y < 0 ∨
          BOARD_SIZE ≤ nextHead.x ∨ BOARD_SIZE ≤ nextHead.y then
        endGame s1
      else if nextHead ∈ c :: cs then
        endGame s1
      else if nextHead = s.foodCell then
        let newSnake := (c :: cs) ++ [nextHead]
        { s1 with snakeSegments := newSnake
                  score := s.score + 1
                  foodCell := placeFood newSnake }
      else
        { s1 with snakeSegments := cs ++ [nextHead] }

/-- System-level tick.  The interval effect of lines 129-142 installs the
timer that fires step only while gameStatus is running and clears it
otherwise, so a tick of the system is step guarded by the status. -/
def tick (placeFood : List GridCell → GridCell) (s : GameState) : GameState :=
  if s.gameStatus = GameStatus.running then step placeFood s else s

/-- setDirectionImmediate of lines 175-186 (the keyboard handler of lines
151-169 applies the same guards): ignored unless running, ignored on an
exact reversal of the current direction state, otherwise overwrites the
single pending slot. -/
def setDirectionImmediate (next : Direction) (s : GameState) : GameState :=
  if s.gameStatus ≠ GameStatus.running then s
  else if (s.movementDirection = Direction.up ∧ next = Direction.down) ∨
      (s.movementDirection = Direction.down ∧ next = Direction.up) ∨
      (s.movementDirection = Direction.left ∧ next = Direction.right) ∨
      (s.movementDirection = Direction.right ∧ next = Direction.left) then s
  else { s with pendingDirection := some next }

/-- speedMs of lines 123-127, a pure function of the score. -/
def speedMs (score : Nat) : Nat :=
  let base := 140
  let speedup := min 80 (score / 5 * 10)
  max 60 (base - speedup)

/-- The exact opposite of a direction, the notion the specification uses
for the reversal guard. -/
def oppositeDir : Direction → Direction
  | Direction.up => Direction.down
  | Direction.down => Direction.up
  | Direction.left => Direction.right
  | Direction.right => Direction.left

/-- Membership of a cell in the board, the interval [0,N) in both
coordinates. -/
def inBoard (c : GridCell) : Prop :=
  0 ≤ c.x ∧ c.x < BOARD_SIZE ∧ 0 ≤ c.y ∧ c.y < BOARD_SIZE

instance (c : GridCell) : Decidable (inBoard c) := by
  unfold inBoard; infer_instance

/-- States reachable from startGame by ticks and direction inputs, for a
fixed food-placement oracle. -/
inductive Reachable (placeFood : List GridCell → GridCell) : GameState → Prop
  | start (s0 : GameState) : Reachable placeFood (startGame placeFood s0)
  | tick {s : GameState} (h : Reachable placeFood s) :
      Reachable placeFood (tick placeFood s)
  | input {s : GameState} (d : Direction) (h : Reachable placeFood s) :
      Reachable placeFood (setDirectionImmediate d s)

/-- A concrete food-placement oracle used in witnesses: a cell strictly
above every y coordinate of the occupied list, hence never occupied. -/
def freshCell (occ : List GridCell) : GridCell :=
  ⟨0, (occ.map (fun c => c.y)).foldr max 0 + 1⟩

/-- A running state used in witnesses, otherwise the initial component
state. -/
def sRun : GameState := { init0 with gameStatus := GameStatus.running }

/-- A running state with a buffered pending direction change to up. -/
def sPending : GameState := { sRun with pendingDirection := some Direction.up }

def sTail : GameState :=
  { sRun with snakeSegments := [⟨5, 6⟩, ⟨5, 5⟩, ⟨6, 5⟩, ⟨6, 6⟩]
              movementDirection := Direction.left }

/-- A draw stream enumerating the whole board, used as a witness. -/
def rngEnum (i : Nat) : GridCell :=
  ⟨((i % 20 : Nat) : Int), ((i / 20 % 20 : Nat) : Int)⟩

/-- The head of a nonempty tail-first snake is its last element. -/
def snakeHead (c : GridCell) (cs : List GridCell) : GridCell :=
  (c :: cs).getLast (List.cons_ne_nil c cs)

theorem le_foldr_max (l : List Int) (y : Int) (hy : y ∈ l) :
    y ≤ l.foldr max 0 := by
  induction l with
  | nil => cases hy
  | cons a t ih =>
      rcases List.mem_cons.mp hy with h | h
      · subst h; exact le_max_left _ _
      · exact le_trans (ih h) (le_max_right _ _)

theorem freshCell_not_mem (occ : List GridCell) : freshCell occ ∉ occ := by
  intro hmem
  have hy : (freshCell occ).y ∈ occ.map (fun c => c.y) :=
    List.mem_map.mpr ⟨freshCell occ, hmem, rfl⟩
  have := le_foldr_max (occ.map (fun c => c.y)) _ hy
  simp only [freshCell] at this
  omega

theorem not_inBoard_iff (a : GridCell) :
    ¬ inBoard a ↔
      (a.x < 0 ∨ a.y < 0 ∨ BOARD_SIZE ≤ a.x ∨ BOARD_SIZE ≤ a.y) := by
  unfold inBoard BOARD_SIZE
  omega

theorem endGame_snakeSegments (s : GameState) :
    (endGame s).snakeSegments = s.snakeSegments := by
  unfold endGame; split <;> rfl

theorem endGame_foodCell (s : GameState) :
    (endGame s).foodCell = s.foodCell := by
  unfold endGame; split <;> rfl

theorem endGame_movementDirection (s : GameState) :
    (endGame s).movementDirection = s.movementDirection := by
  unfold endGame; split <;> rfl

theorem endGame_pendingDirection (s : GameState) :
    (endGame s).pendingDirection = s.pendingDirection := by
  unfold endGame; split <;> rfl

theorem endGame_score (s : GameState) : (endGame s).score = s.score := by
  unfold endGame; split <;> rfl

theorem endGame_gameStatus (s : GameState) :
    (endGame s).gameStatus = GameStatus.over := by
  unfold endGame; split <;> rfl

/-- Claim C2: for every state whose status is not running, a tick leaves the
entire state unchanged: the interval effect never schedules step outside
the running status. -/
theorem tick_nonrunning_id (placeFood : List GridCell → GridCell)
    (s : GameState) (h : s.gameStatus ≠ GameStatus.running) :
    tick placeFood s = s := by
  unfold tick
  simp [h]

theorem tick_nonrunning_id_witness :
    tick freshCell init0 = init0 :=
  tick_nonrunning_id freshCell init0 (by decide)

/-- Claim C7: speedMs equals the clamped formula of the specification, takes the
specified values at scores 7 and 50, stays within [60, 140] and is
non-increasing in the score. -/
theorem speedMs_spec :
    (∀ n : Nat, speedMs n = max 60 (140 - min 80 (n / 5 * 10))) ∧
    speedMs 7 = 130 ∧
    speedMs 50 = 60 ∧
    (∀ n : Nat, 60 ≤ speedMs n ∧ speedMs n ≤ 140) ∧
    (∀ m n : Nat, m ≤ n → speedMs n ≤ speedMs m) := by
  refine ⟨fun n => rfl, by decide, by decide, fun n => ?_, fun m n h => ?_⟩
  · simp only [speedMs]
    omega
  · simp only [speedMs]
    omega

theorem speedMs_spec_witness :
    (7 : Nat) ≤ 50 ∧ speedMs 50 ≤ speedMs 7 :=
  ⟨by decide, speedMs_spec.2.2.2.2 7 50 (by decide)⟩

/-- Claim C9: endGame always sets the status to over and keeps score, snake,
food and direction; it raises the high score and appends exactly one
persistence write when and only when the score exceeds the stored high
score, and otherwise leaves both the high score and the write journal
unchanged.  In particular ending with score 12 against high score 10
writes 12, and ending with score 5 against high score 10 writes nothing. -/
theorem endGame_spec :
    (∀ s : GameState,
      (endGame s).gameStatus = GameStatus.over ∧
      (endGame s).score = s.score ∧
      (endGame s).snakeSegments = s.snakeSegments ∧
      (endGame s).foodCell = s.foodCell ∧
      (endGame s).movementDirection = s.movementDirection ∧
      (endGame s).highScore =
        (if s.highScore < s.score then s.score else s.highScore) ∧
      (endGame s).storageLog =
        (if s.highScore < s.score then s.storageLog ++ [s.score]
         else s.storageLog)) ∧
    (endGame { sRun with score := 12, highScore := 10 }).highScore = 12 ∧
    (endGame { sRun with score := 12, highScore := 10 }).storageLog = [12] ∧
    (endGame { sRun with score := 5, highScore := 10 }).highScore = 10 ∧
    (endGame { sRun with score := 5, highScore := 10 }).storageLog = [] := by
  refine ⟨fun s => ?_, by decide, by decide, by decide, by decide⟩
  unfold endGame
  by_cases h : s.highScore < s.score
  · simp [gt_iff_lt, h]
  · simp [gt_iff_lt, h]

/-- Claim C3, counterexample: the End Game button only sets the status; with
score 12 against high score 10 it neither raises the high score nor
writes to the store, unlike endGame on the same state. -/
theorem manualEndGame_differs_from_endGame :
    manualEndGame { sRun with score := 12, highScore := 10 } ≠
      endGame { sRun with score := 12, highScore := 10 } ∧
    (manualEndGame { sRun with score := 12, highScore := 10 }).gameStatus =
      GameStatus.over ∧
    (manualEndGame { sRun with score := 12, highScore := 10 }).highScore = 10 ∧
    (manualEndGame { sRun with score := 12, highScore := 10 }).storageLog = [] ∧
    (endGame { sRun with score := 12, highScore := 10 }).highScore = 12 ∧
    (endGame { sRun with score := 12, highScore := 10 }).storageLog = [12] := by
  decide

/-- Claim C3, amended: the external manual end-game command sets the status to
over and changes nothing else; in particular it never performs the
high-score comparison, update or persistence write that endGame does. -/
theorem manualEndGame_spec (s : GameState) :
    (manualEndGame s).gameStatus = GameStatus.over ∧
    (manualEndGame s).highScore = s.highScore ∧
    (manualEndGame s).storageLog = s.storageLog ∧
    (manualEndGame s).score = s.score ∧
    (manualEndGame s).snakeSegments = s.snakeSegments ∧
    (manualEndGame s).movementDirection = s.movementDirection ∧
    (manualEndGame s).foodCell = s.foodCell ∧
    (manualEndGame s).pendingDirection = s.pendingDirection := by
  exact ⟨rfl, rfl, rfl, rfl, rfl, rfl, rfl, rfl⟩

theorem opposite_check_iff (cur next : Direction) :
    ((cur = Direction.up ∧ next = Direction.down) ∨
     (cur = Direction.down ∧ next = Direction.up) ∨
     (cur = Direction.left ∧ next = Direction.right) ∨
     (cur = Direction.right ∧ next = Direction.left)) ↔
    next = oppositeDir cur := by
  cases cur <;> cases next <;> simp [oppositeDir]

/-- Claim C8: setDirectionImmediate is the identity when the status is not
running or when the request is the exact opposite of the active direction;
otherwise it only overwrites the pending slot with the request. -/
theorem setDirectionImmediate_spec (next : Direction) (s : GameState) :
    (s.gameStatus ≠ GameStatus.running → setDirectionImmediate next s = s) ∧
    (next = oppositeDir s.movementDirection →
      setDirectionImmediate next s = s) ∧
    (s.gameStatus = GameStatus.running →
      next ≠ oppositeDir s.movementDirection →
      (setDirectionImmediate next s).pendingDirection = some next ∧
      (setDirectionImmediate next s).snakeSegments = s.snakeSegments ∧
      (setDirectionImmediate next s).movementDirection = s.movementDirection ∧
      (setDirectionImmediate next s).foodCell = s.foodCell ∧
      (setDirectionImmediate next s).gameStatus = s.gameStatus ∧
      (setDirectionImmediate next s).score = s.score ∧
      (setDirectionImmediate next s).highScore = s.highScore ∧
      (setDirectionImmediate next s).storageLog = s.storageLog) := by
  refine ⟨fun h => ?_, fun h => ?_, fun hrun hop => ?_⟩
  · unfold setDirectionImmediate
    simp [h]
  · unfold setDirectionImmediate
    rcases Decidable.em (s.gameStatus = GameStatus.running) with hr | hr
    · simp [hr, (opposite_check_iff s.movementDirection next).mpr h]
    · simp [hr]
  · unfold setDirectionImmediate
    have hnot : ¬ ((s.movementDirection = Direction.up ∧ next = Direction.down) ∨
        (s.movementDirection = Direction.down ∧ next = Direction.up) ∨
        (s.movementDirection = Direction.left ∧ next = Direction.right) ∨
        (s.movementDirection = Direction.right ∧ next = Direction.left)) := by
      intro hcon
      exact hop ((opposite_check_iff s.movementDirection next).mp hcon)
    simp [hrun, hnot]

theorem setDirectionImmediate_spec_witness :
    (setDirectionImmediate Direction.up sRun).pendingDirection =
      some Direction.up ∧
    (setDirectionImmediate Direction.left sRun) = sRun :=
  ⟨((setDirectionImmediate_spec Direction.up sRun).2.2 (by decide)
      (by decide)).1,
   (setDirectionImmediate_spec Direction.left sRun).2.1 (by decide)⟩

theorem step_nil (pf : List GridCell → GridCell) (s : GameState)
    (hsn : s.snakeSegments = []) : step pf s = s := by
  obtain ⟨sn, dir, fc, st, sc, hsc, pd, log⟩ := s
  simp only at hsn
  subst hsn
  rfl

theorem step_cons (pf : List GridCell → GridCell) (s : GameState)
    (c : GridCell) (cs : List GridCell) (hsn : s.snakeSegments = c :: cs) :
    step pf s =
      (if (moveCell s.movementDirection (snakeHead c cs)).x < 0 ∨
          (moveCell s.movementDirection (snakeHead c cs)).y < 0 ∨
          BOARD_SIZE ≤ (moveCell s.movementDirection (snakeHead c cs)).x ∨
          BOARD_SIZE ≤ (moveCell s.movementDirection (snakeHead c cs)).y then
        endGame { s with
          movementDirection := s.pendingDirection.getD s.movementDirection
          pendingDirection := none }
      else if moveCell s.movementDirection (snakeHead c cs) ∈ c :: cs then
        endGame { s with
          movementDirection := s.pendingDirection.getD s.movementDirection
          pendingDirection := none }
      else if moveCell s.movementDirection (snakeHead c cs) = s.foodCell then
        { s with
          movementDirection := s.pendingDirection.getD s.movementDirection
          pendingDirection := none
          snakeSegments :=
            (c :: cs) ++ [moveCell s.movementDirection (snakeHead c cs)]
          score := s.score + 1
          foodCell :=
            pf ((c :: cs) ++ [moveCell s.movementDirection (snakeHead c cs)]) }
      else
        { s with
          movementDirection := s.pendingDirection.getD s.movementDirection
          pendingDirection := none
          snakeSegments :=
            cs ++ [moveCell s.movementDirection (snakeHead c cs)] }) := by
  obtain ⟨sn, dir, fc, st, sc, hsc, pd, log⟩ := s
  simp only at hsn
  subst hsn
  rfl

theorem tick_run (pf : List GridCell → GridCell) (s : GameState)
    (h : s.gameStatus = GameStatus.running) : tick pf s = step pf s := by
  unfold tick
  simp [h]

/-- Claim C1, counterexample: in a running state with pending direction up
and active direction right, the tick commits up to the direction state,
yet the snake advances to (11,10), one cell to the right; had nextHead
been computed in the newly committed direction the snake would have
become [(10,10),(10,9)]. -/
theorem tick_pending_moves_old_direction :
    (tick freshCell sPending).movementDirection = Direction.up ∧
    (tick freshCell sPending).snakeSegments = [⟨10, 10⟩, ⟨11, 10⟩] ∧
    (tick freshCell sPending).snakeSegments ≠ [⟨10, 10⟩, ⟨10, 9⟩] := by
  decide

/-- Claim C1, amended: on a tick in the running state with a buffered
pending direction, the pending direction is committed as the active
direction and the pending slot cleared, but nextHead is computed by
moving the head one cell in the previously active direction; the newly
committed direction affects movement only from the next tick. -/
theorem tick_commit_lag (pf : List GridCell → GridCell) (s : GameState)
    (c : GridCell) (cs : List GridCell) (d : Direction)
    (hrun : s.gameStatus = GameStatus.running)
    (hsn : s.snakeSegments = c :: cs)
    (hpd : s.pendingDirection = some d) :
    (tick pf s).movementDirection = d ∧
    (tick pf s).pendingDirection = none ∧
    (inBoard (moveCell s.movementDirection (snakeHead c cs)) →
      moveCell s.movementDirection (snakeHead c cs) ∉ c :: cs →
      moveCell s.movementDirection (snakeHead c cs) ≠ s.foodCell →
      (tick pf s).snakeSegments =
        cs ++ [moveCell s.movementDirection (snakeHead c cs)]) := by
  rw [tick_run pf s hrun, step_cons pf s c cs hsn]
  split_ifs with h1 h2 h3
  · refine ⟨?_, ?_, fun hb _ _ => ?_⟩
    · rw [endGame_movementDirection]
      simp [hpd]
    · rw [endGame_pendingDirection]
    · exact absurd hb ((not_inBoard_iff _).mpr h1)
  · refine ⟨?_, ?_, fun _ hnm _ => absurd h2 hnm⟩
    · rw [endGame_movementDirection]
      simp [hpd]
    · rw [endGame_pendingDirection]
  · refine ⟨by simp [hpd], rfl, fun _ _ hne => absurd h3 hne⟩
  · exact ⟨by simp [hpd], rfl, fun _ _ _ => rfl⟩

/-- Claim C4: in a running state with nonempty snake, a tick ends the game
and leaves the snake unchanged exactly when nextHead lies outside the
board or falls on a cell of the pre-move snake, the tail cell included;
in particular moving onto the current tail cell is a collision. -/
theorem tick_collision_iff (pf : List GridCell → GridCell) (s : GameState)
    (c : GridCell) (cs : List GridCell)
    (hrun : s.gameStatus = GameStatus.running)
    (hsn : s.snakeSegments = c :: cs) :
    (((tick pf s).gameStatus = GameStatus.over ∧
      (tick pf s).snakeSegments = s.snakeSegments) ↔
      (¬ inBoard (moveCell s.movementDirection (snakeHead c cs)) ∨
        moveCell s.movementDirection (snakeHead c cs) ∈ c :: cs)) ∧
    (moveCell s.movementDirection (snakeHead c cs) = c →
      (tick pf s).gameStatus = GameStatus.over ∧
      (tick pf s).snakeSegments = s.snakeSegments) := by
  rw [tick_run pf s hrun, step_cons pf s c cs hsn]
  split_ifs with h1 h2 h3
  · have hleft : (endGame { s with
        movementDirection := s.pendingDirection.getD s.movementDirection
        pendingDirection := none }).gameStatus = GameStatus.over ∧
        (endGame { s with
          movementDirection := s.pendingDirection.getD s.movementDirection
          pendingDirection := none }).snakeSegments = s.snakeSegments := by
      rw [endGame_gameStatus, endGame_snakeSegments]
      exact ⟨rfl, rfl⟩
    exact ⟨iff_of_true hleft (Or.inl ((not_inBoard_iff _).mpr h1)),
      fun _ => hleft⟩
  · have hleft : (endGame { s with
        movementDirection := s.pendingDirection.getD s.movementDirection
        pendingDirection := none }).gameStatus = GameStatus.over ∧
        (endGame { s with
          movementDirection := s.pendingDirection.getD s.movementDirection
          pendingDirection := none }).snakeSegments = s.snakeSegments := by
      rw [endGame_gameStatus, endGame_snakeSegments]
      exact ⟨rfl, rfl⟩
    exact ⟨iff_of_true hleft (Or.inr h2), fun _ => hleft⟩
  · refine ⟨iff_of_false (fun hcon => ?_) (fun hcon => ?_), fun htail => ?_⟩
    · have := hcon.1
      simp only at this
      rw [hrun] at this
      cases this
    · rcases hcon with hni | hmem
      · exact h1 ((not_inBoard_iff _).mp hni)
      · exact h2 hmem
    · exact absurd (by rw [htail]; exact List.mem_cons_self c cs) h2
  · refine ⟨iff_of_false (fun hcon => ?_) (fun hcon => ?_), fun htail => ?_⟩
    · have := hcon.1
      simp only at this
      rw [hrun] at this
      cases this
    · rcases hcon with hni | hmem
      · exact h1 ((not_inBoard_iff _).mp hni)
      · exact h2 hmem
    · exact absurd (by rw [htail]; exact List.mem_cons_self c cs) h2

/-- Claim C5: on a non-colliding tick in the running state, the game stays
running; when nextHead equals the food the snake grows by exactly the
appended head, the score rises by one, and the food is re-placed by the
oracle on a cell outside the new longer snake; otherwise the head is
appended, the oldest tail cell removed, and length, score and food are
unchanged. -/
theorem tick_no_collision_spec (pf : List GridCell → GridCell)
    (hpf : ∀ occ, pf occ ∉ occ)
    (s : GameState) (c : GridCell) (cs : List GridCell)
    (hrun : s.gameStatus = GameStatus.running)
    (hsn : s.snakeSegments = c :: cs)
    (hin : inBoard (moveCell s.movementDirection (snakeHead c cs)))
    (hself : moveCell s.movementDirection (snakeHead c cs) ∉ c :: cs) :
    (tick pf s).gameStatus = GameStatus.running ∧
    (moveCell s.movementDirection (snakeHead c cs) = s.foodCell →
      (tick pf s).snakeSegments =
        (c :: cs) ++ [moveCell s.movementDirection (snakeHead c cs)] ∧
      (tick pf s).snakeSegments.length = (c :: cs).length + 1 ∧
      (tick pf s).score = s.score + 1 ∧
      (tick pf s).foodCell =
        pf ((c :: cs) ++ [moveCell s.movementDirection (snakeHead c cs)]) ∧
      (tick pf s).foodCell ∉ (tick pf s).snakeSegments) ∧
    (moveCell s.movementDirection (snakeHead c cs) ≠ s.foodCell →
      (tick pf s).snakeSegments =
        cs ++ [moveCell s.movementDirection (snakeHead c cs)] ∧
      (tick pf s).snakeSegments.length = (c :: cs).length ∧
      (tick pf s).score = s.score ∧
      (tick pf s).foodCell = s.foodCell) := by
  rw [tick_run pf s hrun, step_cons pf s c cs hsn]
  have h1 : ¬ ((moveCell s.movementDirection (snakeHead c cs)).x < 0 ∨
      (moveCell s.movementDirection (snakeHead c cs)).y < 0 ∨
      BOARD_SIZE ≤ (moveCell s.movementDirection (snakeHead c cs)).x ∨
      BOARD_SIZE ≤ (moveCell s.movementDirection (snakeHead c cs)).y) :=
    fun hw => absurd hin ((not_inBoard_iff _).mpr hw)
  rw [if_neg h1, if_neg hself]
  by_cases heat : moveCell s.movementDirection (snakeHead c cs) = s.foodCell
  · rw [if_pos heat]
    refine ⟨by simp [hrun], fun _ => ?_, fun hne => absurd heat hne⟩
    refine ⟨rfl, by simp, rfl, rfl, ?_⟩
    exact hpf ((c :: cs) ++ [moveCell s.movementDirection (snakeHead c cs)])
  · rw [if_neg heat]
    refine ⟨by simp [hrun], fun he => absurd he heat, fun _ => ?_⟩
    exact ⟨rfl, by simp, rfl, rfl⟩

theorem tick_collision_iff_witness :
    (tick freshCell sTail).gameStatus = GameStatus.over ∧
    (tick freshCell sTail).snakeSegments = sTail.snakeSegments :=
  (tick_collision_iff freshCell sTail ⟨5, 6⟩ [⟨5, 5⟩, ⟨6, 5⟩, ⟨6, 6⟩]
    (by decide) (by decide)).2 (by decide)

theorem tick_no_collision_spec_witness :
    (tick freshCell sRun).gameStatus = GameStatus.running ∧
    (tick freshCell sRun).snakeSegments = [⟨10, 10⟩, ⟨11, 10⟩] ∧
    (tick freshCell sRun).score = 0 ∧
    (tick freshCell sRun).foodCell = ⟨5, 5⟩ := by
  have T := tick_no_collision_spec freshCell freshCell_not_mem sRun
    ⟨9, 10⟩ [⟨10, 10⟩] (by decide) (by decide) (by decide) (by decide)
  have h := T.2.2 (by decide)
  refine ⟨T.1, ?_, ?_, ?_⟩
  · rw [h.1]; decide
  · rw [h.2.2.1]; decide
  · rw [h.2.2.2]; decide

theorem tick_commit_lag_witness :
    (tick freshCell sPending).movementDirection = Direction.up ∧
    (tick freshCell sPending).pendingDirection = none ∧
    (tick freshCell sPending).snakeSegments = [⟨10, 10⟩, ⟨11, 10⟩] := by
  have T := tick_commit_lag freshCell sPending ⟨9, 10⟩ [⟨10, 10⟩]
    Direction.up (by decide) (by decide) (by decide)
  refine ⟨T.1, T.2.1, ?_⟩
  rw [T.2.2 (by decide) (by decide) (by decide)]
  decide

theorem getRandomEmptyCell_mem (rng : Nat → GridCell)
    (occupied : List GridCell) :
    ∀ fuel start cell,
      getRandomEmptyCell rng occupied start fuel = some cell →
      cell ∉ occupied := by
  intro fuel
  induction fuel with
  | zero => intro start cell h; cases h
  | succ n ih =>
      intro start cell h
      unfold getRandomEmptyCell at h
      by_cases hm : rng start ∈ occupied
      · rw [if_pos hm] at h
        exact ih (start + 1) cell h
      · rw [if_neg hm] at h
        cases h
        exact hm

theorem getRandomEmptyCell_progress (rng : Nat → GridCell)
    (occupied : List GridCell) :
    ∀ fuel start,
      (∃ n, start ≤ n ∧ n < start + fuel ∧ rng n ∉ occupied) →
      ∃ cell, getRandomEmptyCell rng occupied start fuel = some cell := by
  intro fuel
  induction fuel with
  | zero =>
      intro start ⟨n, h1, h2, _⟩
      omega
  | succ m ih =>
      intro start ⟨n, h1, h2, h3⟩
      unfold getRandomEmptyCell
      by_cases hm : rng start ∈ occupied
      · rw [if_pos hm]
        refine ih (start + 1) ⟨n, ?_, ?_, h3⟩
        · rcases Nat.eq_or_lt_of_le h1 with heq | hlt
          · subst heq
            exact absurd hm h3
          · omega
        · omega
      · rw [if_neg hm]
        exact ⟨rng start, rfl⟩

/-- Claim C10: every successful run of the rejection-sampling loop returns
a cell outside the occupied set, and whenever some board cell is not
occupied and the draw stream eventually hits every board cell, the loop
succeeds with enough fuel, so food placement does not block. -/
theorem getRandomEmptyCell_spec (rng : Nat → GridCell)
    (occupied : List GridCell) :
    (∀ start fuel cell,
      getRandomEmptyCell rng occupied start fuel = some cell →
      cell ∉ occupied) ∧
    ((∀ a : GridCell, inBoard a → ∃ i, rng i = a) →
      (∃ a : GridCell, inBoard a ∧ a ∉ occupied) →
      ∃ fuel cell,
        getRandomEmptyCell rng occupied 0 fuel = some cell ∧
        cell ∉ occupied) := by
  refine ⟨fun start fuel cell h =>
    getRandomEmptyCell_mem rng occupied fuel start cell h,
    fun hfair hfree => ?_⟩
  obtain ⟨a, ha, hnot⟩ := hfree
  obtain ⟨i, hi⟩ := hfair a ha
  obtain ⟨cell, hcell⟩ := getRandomEmptyCell_progress rng occupied (i + 1) 0
    ⟨i, Nat.zero_le i, by omega, by rw [hi]; exact hnot⟩
  exact ⟨i + 1, cell,
    hcell, getRandomEmptyCell_mem rng occupied (i + 1) 0 cell hcell⟩

theorem rngEnum_fair (a : GridCell) (ha : inBoard a) : ∃ i, rngEnum i = a := by
  obtain ⟨x, y⟩ := a
  simp only [inBoard, BOARD_SIZE] at ha
  obtain ⟨hx0, hx, hy0, hy⟩ := ha
  refine ⟨x.toNat + 20 * y.toNat, ?_⟩
  unfold rngEnum
  simp only [GridCell.mk.injEq]
  constructor <;> omega

theorem getRandomEmptyCell_spec_witness :
    ∃ fuel cell,
      getRandomEmptyCell rngEnum [⟨0, 0⟩] 0 fuel = some cell ∧
      cell ∉ ([⟨0, 0⟩] : List GridCell) :=
  (getRandomEmptyCell_spec rngEnum [⟨0, 0⟩]).2 rngEnum_fair
    ⟨⟨1, 0⟩, by decide, by decide⟩

theorem tick_id_of_not_running (pf : List GridCell → GridCell)
    (s : GameState) (h : ¬ s.gameStatus = GameStatus.running) :
    tick pf s = s := by
  unfold tick
  simp [h]

theorem setDirectionImmediate_snakeSegments (d : Direction) (s : GameState) :
    (setDirectionImmediate d s).snakeSegments = s.snakeSegments := by
  unfold setDirectionImmediate
  split_ifs <;> rfl

theorem setDirectionImmediate_foodCell (d : Direction) (s : GameState) :
    (setDirectionImmediate d s).foodCell = s.foodCell := by
  unfold setDirectionImmediate
  split_ifs <;> rfl

theorem inBoard_of_not_wall (a : GridCell)
    (h : ¬ (a.x < 0 ∨ a.y < 0 ∨ BOARD_SIZE ≤ a.x ∨ BOARD_SIZE ≤ a.y)) :
    inBoard a := by
  by_contra hni
  exact h ((not_inBoard_iff a).mp hni)

theorem step_preserves_inv (pf : List GridCell → GridCell)
    (hpf : ∀ occ, pf occ ∉ occ) (s : GameState)
    (hb : ∀ a ∈ s.snakeSegments, inBoard a)
    (hnd : s.snakeSegments.Nodup)
    (hf : s.foodCell ∉ s.snakeSegments) :
    (∀ a ∈ (step pf s).snakeSegments, inBoard a) ∧
    (step pf s).snakeSegments.Nodup ∧
    (step pf s).foodCell ∉ (step pf s).snakeSegments := by
  cases hsn : s.snakeSegments with
  | nil =>
      rw [step_nil pf s hsn]
      exact ⟨hb, hnd, hf⟩
  | cons c cs =>
      rw [hsn] at hb hnd hf
      rw [step_cons pf s c cs hsn]
      split_ifs with h1 h2 h3
      · rw [endGame_snakeSegments, endGame_foodCell]
        dsimp only
        rw [hsn]
        exact ⟨hb, hnd, hf⟩
      · rw [endGame_snakeSegments, endGame_foodCell]
        dsimp only
        rw [hsn]
        exact ⟨hb, hnd, hf⟩
      · refine ⟨?_, ?_, ?_⟩
        · intro a ha
          rcases List.mem_append.mp ha with hmem | hmem
          · exact hb a hmem
          · rw [List.mem_singleton] at hmem
            subst hmem
            exact inBoard_of_not_wall _ h1
        · rw [List.nodup_append]
          refine ⟨hnd, List.nodup_singleton _, ?_⟩
          intro a ha hmem
          rw [List.mem_singleton] at hmem
          subst hmem
          exact h2 ha
        · exact hpf _
      · refine ⟨?_, ?_, ?_⟩
        · intro a ha
          rcases List.mem_append.mp ha with hmem | hmem
          · exact hb a (List.mem_cons_of_mem c hmem)
          · rw [List.mem_singleton] at hmem
            subst hmem
            exact inBoard_of_not_wall _ h1
        · rw [List.nodup_append]
          refine ⟨(List.nodup_cons.mp hnd).2, List.nodup_singleton _, ?_⟩
          intro a ha hmem
          rw [List.mem_singleton] at hmem
          subst hmem
          exact h2 (List.mem_cons_of_mem c ha)
        · intro hmem
          rcases List.mem_append.mp hmem with hmem | hmem
          · exact hf (List.mem_cons_of_mem c hmem)
          · rw [List.mem_singleton] at hmem
            exact h3 hmem.symm

/-- Claim C6: in every state reachable from startGame by ticks and
direction inputs, with a placement oracle that avoids the occupied set,
every snake cell lies inside the board of side 20, the snake cells are
pairwise distinct, and the food cell equals no snake cell. -/
theorem reachable_inv (pf : List GridCell → GridCell)
    (hpf : ∀ occ, pf occ ∉ occ) (s : GameState) (h : Reachable pf s) :
    (∀ a ∈ s.snakeSegments, inBoard a) ∧
    s.snakeSegments.Nodup ∧
    s.foodCell ∉ s.snakeSegments := by
  induction h with
  | start s0 =>
      refine ⟨?_, ?_, ?_⟩
      · intro a ha
        simp only [startGame, List.mem_cons, List.not_mem_nil, or_false] at ha
        rcases ha with rfl | rfl
        · decide
        · decide
      · simp only [startGame]
        decide
      · simp only [startGame]
        exact hpf _
  | @tick t ht ih =>
      by_cases hrun : t.gameStatus = GameStatus.running
      · rw [tick_run pf t hrun]
        exact step_preserves_inv pf hpf t ih.1 ih.2.1 ih.2.2
      · rw [tick_id_of_not_running pf t hrun]
        exact ih
  | @input t d ht ih =>
      rw [setDirectionImmediate_snakeSegments, setDirectionImmediate_foodCell]
      exact ih

theorem reachable_inv_witness :
    (∀ a ∈ (startGame freshCell init0).snakeSegments, inBoard a) ∧
    (startGame freshCell init0).snakeSegments.Nodup ∧
    (startGame freshCell init0).foodCell ∉
      (startGame freshCell init0).snakeSegments :=
  reachable_inv freshCell freshCell_not_mem (startGame freshCell init0)
    (Reachable.start init0)
